import Mathlib

/-!
Verification of the B-Voice-Transcript application (a React live speech-transcription UI).

The repository has two source files: `types.ts` (the data model) and an application component
file containing two closely related variants of the same `App` component (referred to below as
variant A, the first document, and variant B, the second). Where the two variants agree — the
`onmessage`, `onerror`, `onclose` handlers, `stopSession`, `startSession`, the start/stop
toggle button, and the empty-log guard of `saveAsWord` — a single Lean definition embeds both.
Where they differ (the clear-all control), both are embedded.

React state hooks (`useState`) become fields of an explicit `Model` record; each event handler
becomes a pure function `Model → ... → Model`. Environment-supplied values
(`crypto.randomUUID()`, `Date.now()`, user confirmation, the date string) become explicit
parameters.
-/

/-- From `types.ts`: the `'user' | 'model'` tag of a transcription segment. -/
inductive SegType : Type
  | user
  | model
deriving DecidableEq

/-- From `types.ts`: `TranscriptionSegment { id; text; timestamp; type }`. -/
structure TranscriptionSegment : Type where
  id : String
  text : String
  timestamp : Nat
  type : SegType
deriving DecidableEq

/-- From `types.ts`: `enum AppState { IDLE, CONNECTING, LISTENING, ERROR }`. -/
inductive AppState : Type
  | IDLE
  | CONNECTING
  | LISTENING
  | ERROR
deriving DecidableEq

/-- The fields of a `LiveServerMessage` that `onmessage` inspects:
`message.serverContent?.inputTranscription` (carrying `.text`) and
`message.serverContent?.turnComplete`. -/
structure LiveServerMessage : Type where
  inputTranscription : Option String
  turnComplete : Bool
deriving DecidableEq

/-- Lifecycle of the underlying transport connection, modelling the external streaming
session (spec section 6): `onopen` can fire only while the connect is pending, `onmessage`
only while open, and `onerror` / `onclose` only while pending or open. This is not a program
variable; it encodes the callback-ordering guarantee of the external collaborator. -/
inductive ConnPhase : Type
  | noConn
  | pending
  | opened
  | closedP
deriving DecidableEq

/-- The application state: the four `useState` hooks of the `App` component plus the four
resource refs (`scriptProcessorRef`, `streamRef`, `audioContextRef`, `sessionPromiseRef`,
modelled as held-or-not booleans) and the transport phase. -/
structure Model : Type where
  appState : AppState
  transcriptions : List TranscriptionSegment
  currentDraft : String
  errorMessage : Option String
  scriptProcessor : Bool
  stream : Bool
  audioContext : Bool
  sessionPromise : Bool
  connPhase : ConnPhase
deriving DecidableEq

/-- The initial hook values: `IDLE`, `[]`, `''`, `null`, all refs `null`. -/
def initModel : Model :=
  { appState := AppState.IDLE
    transcriptions := []
    currentDraft := ""
    errorMessage := none
    scriptProcessor := false
    stream := false
    audioContext := false
    sessionPromise := false
    connPhase := ConnPhase.noConn }

/-- The `onerror` handler's user-facing message (variant B's string; variant A uses a
different Burmese sentence, equally non-null). -/
def sessionErrorMsg : String := "အမှားတစ်ခု ဖြစ်ပွားခဲ့သည်။ ကျေးဇူးပြု၍ ပြန်လည်ကြိုးစားပါ။"

/-- The `startSession` catch-block message (variant B's string). -/
def micErrorMsg : String := "မိုက်ခရိုဖုန်း အသုံးပြုခွင့် မရပါ။"

/-- The `saveAsWord` empty-log alert message (variant B's string). -/
def saveEmptyNotice : String := "သိမ်းဆည်းရန် စာသားမရှိသေးပါ။"

/-- `stopSession`: disconnects and nulls the script processor, stops and nulls the media
stream, closes and nulls the audio context, closes and nulls the session (when present),
then `setAppState(IDLE)`. It touches neither `currentDraft` nor `transcriptions` nor
`errorMessage`. -/
def stopSession (m : Model) : Model :=
  { m with
    scriptProcessor := false
    stream := false
    audioContext := false
    sessionPromise := false
    connPhase := if m.sessionPromise then ConnPhase.closedP else m.connPhase
    appState := AppState.IDLE }

/-- Where the `startSession` body can throw into its catch block: `getUserMedia` rejecting
(before `streamRef` is set), audio-context construction failing (after `streamRef` is set),
or the connect call throwing (after the context is set). `ok` is the non-throwing run. -/
inductive StartOutcome : Type
  | ok
  | failBeforeStream
  | failAfterStream
  | failAfterCtx
deriving DecidableEq

/-- `startSession`: sets `CONNECTING` and clears the error message, acquires the microphone
stream, the audio context and the connect promise in that order; on any throw the catch block
sets the microphone error message and forces `IDLE` (acquired resources are not released by
the catch block, faithful to the code). On the non-throwing run the connect promise is stored
and the transport is pending; `LISTENING` is only reached later by `onopen`. -/
def startSession (m : Model) (o : StartOutcome) : Model :=
  let m0 := { m with appState := AppState.CONNECTING, errorMessage := none }
  match o with
  | StartOutcome.failBeforeStream =>
      { m0 with appState := AppState.IDLE, errorMessage := some micErrorMsg }
  | StartOutcome.failAfterStream =>
      { m0 with stream := true, appState := AppState.IDLE, errorMessage := some micErrorMsg }
  | StartOutcome.failAfterCtx =>
      { m0 with stream := true, audioContext := true,
                appState := AppState.IDLE, errorMessage := some micErrorMsg }
  | StartOutcome.ok =>
      { m0 with stream := true, audioContext := true, sessionPromise := true,
                connPhase := ConnPhase.pending }

/-- The `onopen` callback: `setAppState(LISTENING)` and installation of the script
processor; the transport is now open. -/
def onopen (m : Model) : Model :=
  { m with appState := AppState.LISTENING, scriptProcessor := true,
           connPhase := ConnPhase.opened }

/-- Leading- and trailing-whitespace removal on a character list. -/
def trimChars (cs : List Char) : List Char :=
  ((cs.dropWhile Char.isWhitespace).reverse.dropWhile Char.isWhitespace).reverse

/-- The JS `String.prototype.trim()` used by `onmessage`: strips whitespace from both ends. -/
def jsTrim (s : String) : String := String.mk (trimChars s.data)

/-- The `onmessage` handler, identical in both variants. If the message carries
`inputTranscription`, its text is appended verbatim to the draft. If it carries
`turnComplete`, the draft is trimmed; when the trimmed draft is non-empty (JS truthiness of
a string) a segment `{ id: crypto.randomUUID(), text: trimmed, timestamp: Date.now(),
type: 'user' }` is appended to the log; the draft becomes `''` in either case. `freshId`
models `crypto.randomUUID()` and `now` models `Date.now()`. -/
def onmessage (m : Model) (msg : LiveServerMessage) (freshId : String) (now : Nat) : Model :=
  let m1 :=
    match msg.inputTranscription with
    | some text => { m with currentDraft := m.currentDraft ++ text }
    | none => m
  if msg.turnComplete then
    let trimmed := jsTrim m1.currentDraft
    let m2 :=
      if trimmed ≠ "" then
        { m1 with transcriptions :=
            m1.transcriptions ++ [⟨freshId, trimmed, now, SegType.user⟩] }
      else m1
    { m2 with currentDraft := "" }
  else m1

/-- The `onerror` callback: logs, sets the session error message, and calls `stopSession`. -/
def onerror (m : Model) : Model :=
  stopSession { m with errorMessage := some sessionErrorMsg }

/-- The `onclose` callback: `setAppState(IDLE)` only (refs are not cleared there). -/
def onclose (m : Model) : Model :=
  { m with appState := AppState.IDLE, connPhase := ConnPhase.closedP }

/-- A run of partial-transcript events: each event is a message carrying a text fragment and
no turn-complete flag, folded through `onmessage` in arrival order. -/
def applyPartials (m : Model) (frags : List String) : Model :=
  frags.foldl (fun st t => onmessage st ⟨some t, false⟩ "" 0) m

/-- Variant B's `clearAll`: after `confirm(...)`, `setTranscriptions([])` and
`setCurrentDraft('')`; nothing happens without confirmation. -/
def clearAll (m : Model) (confirmed : Bool) : Model :=
  if confirmed then { m with transcriptions := [], currentDraft := "" } else m

/-- Variant A's clear button handler: `confirm('Clear all?') && setTranscriptions([])` —
the draft is not touched. -/
def clearAllButtonV1 (m : Model) (confirmed : Bool) : Model :=
  if confirmed then { m with transcriptions := [] } else m

/-- The observable outcome of `saveAsWord`: either the empty-log alert, or a document
download (filename plus the rendered blocks, each a segment text with its timestamp). -/
inductive SaveEffect : Type
  | alertNotice (msg : String)
  | download (filename : String) (blocks : List (String × Nat))
deriving DecidableEq

/-- `saveAsWord`: when `transcriptions.length === 0` it alerts and returns; otherwise it
renders one block per segment, in log order, and offers the file
`Myanmar_Transcription_<date>.doc` (variant B replaces `/` with `-` in the date). No React
state is written on either path, so the model component of the result is the input model. -/
def saveAsWord (m : Model) (dateStr : String) : Model × SaveEffect :=
  if m.transcriptions.length = 0 then
    (m, SaveEffect.alertNotice saveEmptyNotice)
  else
    (m, SaveEffect.download
          ("Myanmar_Transcription_" ++ (dateStr.replace "/" "-") ++ ".doc")
          (m.transcriptions.map fun t => (t.text, t.timestamp)))

/-- The start/stop toggle button, identical in both variants:
`onClick={appState === LISTENING ? stopSession : startSession}` with
`disabled={appState === CONNECTING}`. A press while `CONNECTING` is a no-op (disabled);
while `LISTENING` it stops; otherwise it starts with outcome `o`. -/
def pressToggle (m : Model) (o : StartOutcome) : Model :=
  if m.appState = AppState.CONNECTING then m
  else if m.appState = AppState.LISTENING then stopSession m
  else startSession m o

/-- The events the application consumes: user presses of the toggle, the four session
callbacks, the clear-all controls of each variant, and the export action. -/
inductive Ev : Type
  | press (o : StartOutcome)
  | openEv
  | msgEv (msg : LiveServerMessage) (freshId : String) (now : Nat)
  | errEv
  | closeEv
  | clearEv (confirmed : Bool)
  | clearV1Ev (confirmed : Bool)
  | saveEv (dateStr : String)

/-- One dispatch step. Session callbacks are gated by the transport phase (the external
collaborator's ordering guarantee, spec section 6): a callback outside its phase does not
occur, modelled as the identity. -/
def step (m : Model) (e : Ev) : Model :=
  match e with
  | Ev.press o => pressToggle m o
  | Ev.openEv => if m.connPhase = ConnPhase.pending then onopen m else m
  | Ev.msgEv msg freshId now =>
      if m.connPhase = ConnPhase.opened then onmessage m msg freshId now else m
  | Ev.errEv =>
      if m.connPhase = ConnPhase.pending ∨ m.connPhase = ConnPhase.opened then onerror m else m
  | Ev.closeEv =>
      if m.connPhase = ConnPhase.pending ∨ m.connPhase = ConnPhase.opened then onclose m else m
  | Ev.clearEv c => clearAll m c
  | Ev.clearV1Ev c => clearAllButtonV1 m c
  | Ev.saveEv d => (saveAsWord m d).1

/-- States reachable from the initial hook values by dispatch steps. -/
def Reachable (m : Model) : Prop :=
  Relation.ReflTransGen (fun a b => ∃ e, step a e = b) initModel m

/-- The inductive invariant behind the lifecycle claims: the `ERROR` enum value is never
assigned, a pending connect exists only while `CONNECTING`, an open connection only while
`LISTENING`, and a live transport implies the session ref is held. -/
def LifecycleInv (m : Model) : Prop :=
  m.appState ≠ AppState.ERROR ∧
  (m.connPhase = ConnPhase.pending → m.appState = AppState.CONNECTING) ∧
  (m.connPhase = ConnPhase.opened → m.appState = AppState.LISTENING) ∧
  ((m.connPhase = ConnPhase.pending ∨ m.connPhase = ConnPhase.opened) →
    m.sessionPromise = true)

/-- The transition edges the spec allows: staying put, `IDLE → CONNECTING` (start),
`CONNECTING → LISTENING` (open), and `CONNECTING → IDLE` / `LISTENING → IDLE`
(stop, error, close, failed start). -/
def allowedEdge (s t : AppState) : Prop :=
  s = t ∨
  (s = AppState.IDLE ∧ t = AppState.CONNECTING) ∨
  (s = AppState.CONNECTING ∧ t = AppState.LISTENING) ∨
  (s = AppState.CONNECTING ∧ t = AppState.IDLE) ∨
  (s = AppState.LISTENING ∧ t = AppState.IDLE)

/-- Modelled from the spec: an input audio sample for the PCM frame encoder. The encoder
`createPcmBlob` is imported from `./services/audioUtils`, a file absent from the repository
snapshot, so it is modelled from spec section 4.1. A sample is a floating-point value,
modelled as either a finite rational or a non-finite value (NaN or an infinity). -/
inductive AudioSample : Type
  | finite (val : ℚ)
  | nonFinite
deriving DecidableEq

/-- Modelled from the spec (section 4.1, `createPcmBlob` being absent from the snapshot):
a non-finite sample is treated as silence (zero); a finite sample is clamped to
`[-1, 1]` and then scaled by 32767 when non-negative and by 32768 when negative, truncated
toward zero to an integer. -/
def sampleToInt16 (s : AudioSample) : Int :=
  match s with
  | AudioSample.nonFinite => 0
  | AudioSample.finite v =>
      let c := max (-1 : ℚ) (min 1 v)
      if 0 ≤ c then ⌊c * 32767⌋ else -⌊-(c * 32768)⌋

/-- Modelled from the spec: the little-endian byte pair of a signed 16-bit value
(two's complement, low byte first). -/
def int16LE (v : Int) : List Nat :=
  [((v % 65536).toNat) % 256, ((v % 65536).toNat) / 256]

/-- Modelled from the spec: `createPcmBlob` maps each sample of the block to its signed
16-bit value and emits the little-endian bytes in sample order. -/
def createPcmBlob (samples : List AudioSample) : List Nat :=
  ((samples.map sampleToInt16).map int16LE).flatten

/-- A concrete state with a non-empty pending draft, used to exhibit behaviour of
`stopSession` on a live session. -/
def listeningWithDraft : Model :=
  { initModel with
      appState := AppState.LISTENING
      currentDraft := "မင်္ဂလာပါ"
      scriptProcessor := true
      stream := true
      audioContext := true
      sessionPromise := true
      connPhase := ConnPhase.opened }

/-- A concrete state with one committed segment and a non-empty draft, used to exhibit
behaviour of the variant A clear button. -/
def logWithDraft : Model :=
  { initModel with
      transcriptions := [⟨"id-1", "ပထမစာကြောင်း", 10, SegType.user⟩]
      currentDraft := "ဒုတိယ" }

/-- A message carrying only a text fragment leaves every field but the draft alone and
appends the fragment to the draft; direct from the definition of `onmessage`. -/
theorem onmessage_append_fragment (m : Model) (t freshId : String) (now : Nat) :
    onmessage m ⟨some t, false⟩ freshId now
      = { m with currentDraft := m.currentDraft ++ t } := rfl

/-- Hoisting the accumulator out of a string-concatenation fold. -/
theorem str_foldl_append (xs : List String) : ∀ b : String,
    xs.foldl (fun r s => r ++ s) b = b ++ xs.foldl (fun r s => r ++ s) "" := by
  induction xs with
  | nil => intro b; simp
  | cons x xs ih =>
      intro b
      simp only [List.foldl_cons]
      rw [ih (b ++ x), ih ("" ++ x)]
      simp [String.append_assoc]

/-- A run of partial-transcript events extends the draft by the fold of its fragments. -/
theorem applyPartials_draft (frags : List String) : ∀ m : Model,
    (applyPartials m frags).currentDraft
      = frags.foldl (fun r s => r ++ s) m.currentDraft := by
  induction frags with
  | nil => intro m; rfl
  | cons t ts ih =>
      intro m
      simp only [applyPartials, List.foldl_cons] at *
      rw [onmessage_append_fragment] at *
      exact ih _

/-- C1. For every turn-complete event (a message with `turnComplete` and no transcription
fragment): the draft is reset to the empty string; when the trimmed draft is non-empty,
exactly one new segment whose text is the trimmed draft is appended at the end of the log;
when the trimmed draft is empty, the log is unchanged. -/
theorem turnComplete_commits_trimmed_draft (m : Model) (freshId : String) (now : Nat) :
    (onmessage m ⟨none, true⟩ freshId now).currentDraft = "" ∧
    (jsTrim m.currentDraft ≠ "" →
      (onmessage m ⟨none, true⟩ freshId now).transcriptions
        = m.transcriptions ++ [⟨freshId, jsTrim m.currentDraft, now, SegType.user⟩]) ∧
    (jsTrim m.currentDraft = "" →
      (onmessage m ⟨none, true⟩ freshId now).transcriptions = m.transcriptions) := by
  by_cases h : jsTrim m.currentDraft = "" <;>
    simp [onmessage, h]

/-- Witness for C1: a concrete turn-complete dispatch on a state whose draft trims to
`"hello"` commits exactly that segment and clears the draft. -/
theorem turnComplete_commits_trimmed_draft_wit :
    (onmessage { initModel with currentDraft := " hello " } ⟨none, true⟩ "u1" 7).transcriptions
      = [⟨"u1", "hello", 7, SegType.user⟩] ∧
    (onmessage { initModel with currentDraft := " hello " } ⟨none, true⟩ "u1" 7).currentDraft
      = "" := by
  have h := turnComplete_commits_trimmed_draft { initModel with currentDraft := " hello " } "u1" 7
  refine ⟨(h.2.1 (by decide)).trans (by decide), h.1⟩

/-- C2. For every sequence of partial-transcript events starting from an empty draft, the
draft afterwards is the exact concatenation of the fragments in arrival order. -/
theorem partials_concatenate_in_order (m : Model) (frags : List String)
    (h : m.currentDraft = "") :
    (applyPartials m frags).currentDraft = String.join frags := by
  rw [applyPartials_draft frags m, h]
  rfl

/-- Witness for C2: two concrete fragments concatenate in arrival order with no trimming. -/
theorem partials_concatenate_in_order_wit :
    (applyPartials initModel ["မင်္ဂလာ", " ပါ "]).currentDraft = "မင်္ဂလာ ပါ " := by
  exact (partials_concatenate_in_order initModel ["မင်္ဂလာ", " ပါ "] rfl).trans (by decide)

/-- Counterexample to C3 as stated: a state with the non-empty pending draft
`"မင်္ဂလာပါ"` still has that non-empty draft after `stopSession` — the draft is not reset
to the empty string by stopping. -/
theorem stop_retains_draft_cex :
    listeningWithDraft.currentDraft ≠ "" ∧
    (stopSession listeningWithDraft).currentDraft = listeningWithDraft.currentDraft ∧
    (stopSession listeningWithDraft).currentDraft ≠ "" := by decide

/-- C3 (amended). For every state with a non-empty pending draft, `stopSession` leaves the
transcript log unchanged (no segment is created from the discarded draft) and returns to
`IDLE`; the draft itself is left as it was, not cleared. -/
theorem stop_commits_nothing (m : Model) (h : m.currentDraft ≠ "") :
    (stopSession m).transcriptions = m.transcriptions ∧
    (stopSession m).currentDraft = m.currentDraft ∧
    (stopSession m).appState = AppState.IDLE :=
  ⟨rfl, rfl, rfl⟩

/-- Witness for the amended C3 at the concrete listening state with a pending draft. -/
theorem stop_commits_nothing_wit :
    (stopSession listeningWithDraft).transcriptions = listeningWithDraft.transcriptions ∧
    (stopSession listeningWithDraft).currentDraft = listeningWithDraft.currentDraft ∧
    (stopSession listeningWithDraft).appState = AppState.IDLE :=
  stop_commits_nothing listeningWithDraft (by decide)

/-- C5. For every error event received while `LISTENING`, the handler records the non-null
session error message and runs `stopSession`, so the state is `IDLE` (never `ERROR`) and
every session resource is released. -/
theorem error_event_forces_idle (m : Model) (h : m.appState = AppState.LISTENING) :
    (onerror m).errorMessage = some sessionErrorMsg ∧
    (onerror m).appState = AppState.IDLE ∧
    (onerror m).appState ≠ AppState.ERROR ∧
    (onerror m).scriptProcessor = false ∧
    (onerror m).stream = false ∧
    (onerror m).audioContext = false ∧
    (onerror m).sessionPromise = false :=
  ⟨rfl, rfl, fun hc => AppState.noConfusion hc, rfl, rfl, rfl, rfl⟩

/-- Witness for C5 at the concrete listening state. -/
theorem error_event_forces_idle_wit :
    (onerror listeningWithDraft).errorMessage = some sessionErrorMsg ∧
    (onerror listeningWithDraft).appState = AppState.IDLE :=
  let h := error_event_forces_idle listeningWithDraft (by decide)
  ⟨h.1, h.2.1⟩

/-- C6. For every throwing run of `startSession` — microphone permission denial or any
later failure while opening the session — the catch block records the human-readable
microphone error message and forces `IDLE`. -/
theorem start_failure_forces_idle (m : Model) (o : StartOutcome)
    (h : o ≠ StartOutcome.ok) :
    (startSession m o).errorMessage = some micErrorMsg ∧
    (startSession m o).appState = AppState.IDLE := by
  cases o with
  | ok => exact absurd rfl h
  | failBeforeStream => exact ⟨rfl, rfl⟩
  | failAfterStream => exact ⟨rfl, rfl⟩
  | failAfterCtx => exact ⟨rfl, rfl⟩

/-- Witness for C6: a concrete permission-denied start from the initial state. -/
theorem start_failure_forces_idle_wit :
    (startSession initModel StartOutcome.failBeforeStream).errorMessage = some micErrorMsg ∧
    (startSession initModel StartOutcome.failBeforeStream).appState = AppState.IDLE :=
  start_failure_forces_idle initModel StartOutcome.failBeforeStream (by decide)

/-- C10. Every partial-transcript event (a message carrying a fragment and no turn-complete
flag) appends the fragment to the draft and changes nothing else: log, app state, error
message and all resource refs are untouched. -/
theorem partial_event_touches_only_draft (m : Model) (t freshId : String) (now : Nat) :
    (onmessage m ⟨some t, false⟩ freshId now).currentDraft = m.currentDraft ++ t ∧
    (onmessage m ⟨some t, false⟩ freshId now).transcriptions = m.transcriptions ∧
    (onmessage m ⟨some t, false⟩ freshId now).appState = m.appState ∧
    (onmessage m ⟨some t, false⟩ freshId now).errorMessage = m.errorMessage ∧
    (onmessage m ⟨some t, false⟩ freshId now).scriptProcessor = m.scriptProcessor ∧
    (onmessage m ⟨some t, false⟩ freshId now).stream = m.stream ∧
    (onmessage m ⟨some t, false⟩ freshId now).audioContext = m.audioContext ∧
    (onmessage m ⟨some t, false⟩ freshId now).sessionPromise = m.sessionPromise :=
  ⟨rfl, rfl, rfl, rfl, rfl, rfl, rfl, rfl⟩

/-- C7. The PCM frame encoder maps `1.0` to 32767, `-1.0` to -32768, `0.0` to 0 and every
non-finite sample to 0; out-of-range samples clamp to the representable extremes; the byte
stream is little-endian two's-complement 16-bit, sample order preserved. -/
theorem pcm_encoder_correct :
    sampleToInt16 (AudioSample.finite 1) = 32767 ∧
    sampleToInt16 (AudioSample.finite (-1)) = -32768 ∧
    sampleToInt16 (AudioSample.finite 0) = 0 ∧
    sampleToInt16 AudioSample.nonFinite = 0 ∧
    (∀ v : ℚ, 1 ≤ v → sampleToInt16 (AudioSample.finite v) = 32767) ∧
    (∀ v : ℚ, v ≤ -1 → sampleToInt16 (AudioSample.finite v) = -32768) ∧
    createPcmBlob [AudioSample.finite 1, AudioSample.finite (-1), AudioSample.finite 0]
      = [255, 127, 0, 128, 0, 0] := by
  have hUp : ∀ v : ℚ, 1 ≤ v → sampleToInt16 (AudioSample.finite v) = 32767 := by
    intro v hv
    have h1 : max (-1 : ℚ) (min 1 v) = 1 := by
      rw [min_eq_left hv]; norm_num
    simp only [sampleToInt16, h1]
    norm_num
  have hDown : ∀ v : ℚ, v ≤ -1 → sampleToInt16 (AudioSample.finite v) = -32768 := by
    intro v hv
    have h1 : max (-1 : ℚ) (min 1 v) = -1 := by
      rw [min_eq_right (hv.trans (by norm_num))]
      exact max_eq_left hv
    simp only [sampleToInt16, h1]
    norm_num
  have e0 : sampleToInt16 (AudioSample.finite 0) = 0 := by
    simp only [sampleToInt16]
    norm_num
  have e1 := hUp 1 le_rfl
  have e2 := hDown (-1) le_rfl
  refine ⟨e1, e2, e0, rfl, hUp, hDown, ?_⟩
  simp only [createPcmBlob, List.map_cons, List.map_nil, e1, e2, e0]
  decide

/-- Witness for C7: concrete out-of-range samples clamp to the extremes. -/
theorem pcm_encoder_correct_wit :
    sampleToInt16 (AudioSample.finite 2) = 32767 ∧
    sampleToInt16 (AudioSample.finite (-2)) = -32768 :=
  ⟨pcm_encoder_correct.2.2.2.2.1 2 (by norm_num),
   pcm_encoder_correct.2.2.2.2.2.1 (-2) (by norm_num)⟩

/-- C8. `saveAsWord` never writes application state; with an empty log it reports the
empty-log notice and produces no download; with a non-empty log it produces a document
download. -/
theorem save_empty_log_noop (m : Model) (d : String) :
    (saveAsWord m d).1 = m ∧
    (m.transcriptions = [] →
      (saveAsWord m d).2 = SaveEffect.alertNotice saveEmptyNotice) ∧
    (m.transcriptions ≠ [] →
      ∃ name blocks, (saveAsWord m d).2 = SaveEffect.download name blocks) := by
  refine ⟨?_, ?_, ?_⟩
  · unfold saveAsWord
    split <;> rfl
  · intro he
    simp [saveAsWord, he]
  · intro hne
    have h : ¬ m.transcriptions.length = 0 := by
      simpa [List.length_eq_zero] using hne
    exact ⟨"Myanmar_Transcription_" ++ (d.replace "/" "-") ++ ".doc",
           m.transcriptions.map (fun t => (t.text, t.timestamp)),
           by simp [saveAsWord, h]⟩

/-- Witness for C8: exporting the initial (empty) log changes nothing and raises the
notice. -/
theorem save_empty_log_noop_wit :
    (saveAsWord initModel "1/2/2026").1 = initModel ∧
    (saveAsWord initModel "1/2/2026").2 = SaveEffect.alertNotice saveEmptyNotice :=
  let h := save_empty_log_noop initModel "1/2/2026"
  ⟨h.1, h.2.1 rfl⟩

/-- Counterexample to C9 as stated: in variant A the confirmed clear button empties the
log but leaves the non-empty draft `"ဒုတိယ"` in place, so clear-all does not empty both. -/
theorem clearAll_v1_retains_draft_cex :
    logWithDraft.currentDraft ≠ "" ∧
    (clearAllButtonV1 logWithDraft true).transcriptions = [] ∧
    (clearAllButtonV1 logWithDraft true).currentDraft = "ဒုတိယ" ∧
    (clearAllButtonV1 logWithDraft true).currentDraft ≠ "" := by decide

/-- C9 (amended). Neither clear-all control mutates anything without confirmation; upon
confirmation both empty the transcript log, variant B also empties the draft, and
variant A leaves the draft unchanged. -/
theorem clearAll_confirmation_and_effects (m : Model) (c : Bool) :
    (c = false → clearAll m c = m ∧ clearAllButtonV1 m c = m) ∧
    (c = true →
      (clearAll m c).transcriptions = [] ∧
      (clearAll m c).currentDraft = "" ∧
      (clearAll m c).appState = m.appState ∧
      (clearAll m c).errorMessage = m.errorMessage ∧
      (clearAllButtonV1 m c).transcriptions = [] ∧
      (clearAllButtonV1 m c).currentDraft = m.currentDraft) := by
  cases c <;> simp [clearAll, clearAllButtonV1]

/-- `onmessage` only ever writes the log and the draft: app state, transport phase and the
session ref are untouched for every message shape. -/
theorem onmessage_frame (m : Model) (msg : LiveServerMessage) (i : String) (n : Nat) :
    (onmessage m msg i n).appState = m.appState ∧
    (onmessage m msg i n).connPhase = m.connPhase ∧
    (onmessage m msg i n).sessionPromise = m.sessionPromise := by
  obtain ⟨oi, tc⟩ := msg
  cases oi <;> cases tc <;>
    first
      | exact ⟨rfl, rfl, rfl⟩
      | · simp only [onmessage]
          split_ifs <;> exact ⟨rfl, rfl, rfl⟩

/-- Both clear-all controls only ever write the log and the draft. -/
theorem clearAll_frame (m : Model) (c : Bool) :
    (clearAll m c).appState = m.appState ∧
    (clearAll m c).connPhase = m.connPhase ∧
    (clearAll m c).sessionPromise = m.sessionPromise ∧
    (clearAllButtonV1 m c).appState = m.appState ∧
    (clearAllButtonV1 m c).connPhase = m.connPhase ∧
    (clearAllButtonV1 m c).sessionPromise = m.sessionPromise := by
  cases c <;> exact ⟨rfl, rfl, rfl, rfl, rfl, rfl⟩

/-- `saveAsWord` returns the input model unchanged on both paths. -/
theorem saveAsWord_fst (m : Model) (d : String) : (saveAsWord m d).1 = m := by
  unfold saveAsWord
  split <;> rfl

/-- The lifecycle invariant holds initially. -/
theorem lifecycleInv_init : LifecycleInv initModel := by
  unfold LifecycleInv
  decide

/-- The lifecycle invariant is preserved by every dispatch step. -/
theorem lifecycleInv_step (m : Model) (e : Ev) (h : LifecycleInv m) :
    LifecycleInv (step m e) := by
  obtain ⟨h1, h2, h3, h4⟩ := h
  cases e with
  | press o =>
      simp only [step, pressToggle]
      split_ifs with hc hl
      · exact ⟨h1, h2, h3, h4⟩
      · have hcp : (stopSession m).connPhase ≠ ConnPhase.pending ∧
            (stopSession m).connPhase ≠ ConnPhase.opened := by
          simp only [stopSession]
          cases hsp : m.sessionPromise
          · simp only [Bool.false_eq_true, if_false]
            refine ⟨fun hp => ?_, fun hp => ?_⟩
            · exact AppState.noConfusion (hl.symm.trans (h2 hp))
            · rw [h4 (Or.inr hp)] at hsp
              cases hsp
          · simp only [if_true]
            exact ⟨fun hx => ConnPhase.noConfusion hx, fun hx => ConnPhase.noConfusion hx⟩
        exact ⟨fun hx => AppState.noConfusion hx,
          fun hp => absurd hp hcp.1,
          fun hp => absurd hp hcp.2,
          fun hp => (hp.elim hcp.1 hcp.2).elim⟩
      · have hIdle : m.appState = AppState.IDLE := by
          cases hA : m.appState
          · rfl
          · exact absurd hA hc
          · exact absurd hA hl
          · exact absurd hA h1
        have hnp : m.connPhase ≠ ConnPhase.pending := fun hp =>
          absurd (h2 hp) (by rw [hIdle]; intro hx; cases hx)
        have hno : m.connPhase ≠ ConnPhase.opened := fun hp =>
          absurd (h3 hp) (by rw [hIdle]; intro hx; cases hx)
        cases o with
        | ok =>
            exact ⟨fun hx => AppState.noConfusion hx, fun _ => rfl,
              fun hp => ConnPhase.noConfusion hp, fun _ => rfl⟩
        | failBeforeStream =>
            exact ⟨fun hx => AppState.noConfusion hx, fun hp => absurd hp hnp,
              fun hp => absurd hp hno, fun hp => (hp.elim hnp hno).elim⟩
        | failAfterStream =>
            exact ⟨fun hx => AppState.noConfusion hx, fun hp => absurd hp hnp,
              fun hp => absurd hp hno, fun hp => (hp.elim hnp hno).elim⟩
        | failAfterCtx =>
            exact ⟨fun hx => AppState.noConfusion hx, fun hp => absurd hp hnp,
              fun hp => absurd hp hno, fun hp => (hp.elim hnp hno).elim⟩
  | openEv =>
      simp only [step]
      split_ifs with hp
      · exact ⟨fun hx => AppState.noConfusion hx,
          fun hx => ConnPhase.noConfusion hx, fun _ => rfl,
          fun _ => h4 (Or.inl hp)⟩
      · exact ⟨h1, h2, h3, h4⟩
  | msgEv msg i n =>
      simp only [step]
      split_ifs with hp
      · obtain ⟨hA, hC, hS⟩ := onmessage_frame m msg i n
        unfold LifecycleInv
        rw [hA, hC, hS]
        exact ⟨h1, h2, h3, h4⟩
      · exact ⟨h1, h2, h3, h4⟩
  | errEv =>
      simp only [step]
      split_ifs with hp
      · have hsp : m.sessionPromise = true := h4 hp
        unfold LifecycleInv
        simp [onerror, stopSession, hsp]
      · exact ⟨h1, h2, h3, h4⟩
  | closeEv =>
      simp only [step]
      split_ifs with hp
      · unfold LifecycleInv onclose
        simp
      · exact ⟨h1, h2, h3, h4⟩
  | clearEv c =>
      simp only [step]
      obtain ⟨hA, hC, hS, _, _, _⟩ := clearAll_frame m c
      unfold LifecycleInv
      rw [hA, hC, hS]
      exact ⟨h1, h2, h3, h4⟩
  | clearV1Ev c =>
      simp only [step]
      obtain ⟨_, _, _, hA, hC, hS⟩ := clearAll_frame m c
      unfold LifecycleInv
      rw [hA, hC, hS]
      exact ⟨h1, h2, h3, h4⟩
  | saveEv d =>
      simp only [step]
      rw [saveAsWord_fst m d]
      exact ⟨h1, h2, h3, h4⟩

/-- Every reachable state satisfies the lifecycle invariant. -/
theorem reachable_lifecycleInv (m : Model) (h : Reachable m) : LifecycleInv m := by
  induction h with
  | refl => exact lifecycleInv_init
  | tail hsteps hstep ih =>
      obtain ⟨e, rfl⟩ := hstep
      exact lifecycleInv_step _ e ih

/-- Every dispatch step from a state satisfying the invariant moves along an allowed edge
of the lifecycle graph. -/
theorem step_allowedEdge (m : Model) (e : Ev) (h : LifecycleInv m) :
    allowedEdge m.appState (step m e).appState := by
  obtain ⟨h1, h2, h3, h4⟩ := h
  cases e with
  | press o =>
      simp only [step, pressToggle]
      split_ifs with hc hl
      · exact Or.inl rfl
      · exact Or.inr (Or.inr (Or.inr (Or.inr ⟨hl, rfl⟩)))
      · have hIdle : m.appState = AppState.IDLE := by
          cases hA : m.appState
          · rfl
          · exact absurd hA hc
          · exact absurd hA hl
          · exact absurd hA h1
        cases o with
        | ok => exact Or.inr (Or.inl ⟨hIdle, rfl⟩)
        | failBeforeStream => exact Or.inl (by rw [hIdle]; rfl)
        | failAfterStream => exact Or.inl (by rw [hIdle]; rfl)
        | failAfterCtx => exact Or.inl (by rw [hIdle]; rfl)
  | openEv =>
      simp only [step]
      split_ifs with hp
      · exact Or.inr (Or.inr (Or.inl ⟨h2 hp, rfl⟩))
      · exact Or.inl rfl
  | msgEv msg i n =>
      simp only [step]
      split_ifs with hp
      · exact Or.inl (onmessage_frame m msg i n).1.symm
      · exact Or.inl rfl
  | errEv =>
      simp only [step]
      split_ifs with hp
      · rcases hp with hp | hp
        · exact Or.inr (Or.inr (Or.inr (Or.inl ⟨h2 hp, rfl⟩)))
        · exact Or.inr (Or.inr (Or.inr (Or.inr ⟨h3 hp, rfl⟩)))
      · exact Or.inl rfl
  | closeEv =>
      simp only [step]
      split_ifs with hp
      · rcases hp with hp | hp
        · exact Or.inr (Or.inr (Or.inr (Or.inl ⟨h2 hp, rfl⟩)))
        · exact Or.inr (Or.inr (Or.inr (Or.inr ⟨h3 hp, rfl⟩)))
      · exact Or.inl rfl
  | clearEv c => exact Or.inl (clearAll_frame m c).1.symm
  | clearV1Ev c => exact Or.inl (clearAll_frame m c).2.2.2.1.symm
  | saveEv d => exact Or.inl (by rw [step, saveAsWord_fst m d])

/-- In any invariant-satisfying state other than `IDLE`, a press of the toggle never runs
`startSession`: it is either the disabled no-op (while `CONNECTING`) or `stopSession`
(while `LISTENING`). -/
theorem press_outside_idle (m : Model) (h : LifecycleInv m)
    (hni : m.appState ≠ AppState.IDLE) (o : StartOutcome) :
    step m (Ev.press o) = m ∨ step m (Ev.press o) = stopSession m := by
  obtain ⟨h1, _, _, _⟩ := h
  cases hA : m.appState
  · exact absurd hA hni
  · exact Or.inl (by simp [step, pressToggle, hA])
  · exact Or.inr (by simp [step, pressToggle, hA])
  · exact absurd hA h1

/-- C4. In every reachable state: the `ERROR` enum value is never the app state; every
dispatch step moves along the allowed lifecycle graph `IDLE → CONNECTING → LISTENING →
IDLE` (error and close paths returning to `IDLE`); and from any state other than `IDLE` a
press of the start/stop toggle never invokes `startSession` — it is the disabled no-op or
`stopSession` — so no second concurrent session or capture is ever opened. -/
theorem start_only_from_idle (m : Model) (h : Reachable m) :
    m.appState ≠ AppState.ERROR ∧
    (∀ e, allowedEdge m.appState (step m e).appState) ∧
    (m.appState ≠ AppState.IDLE →
      ∀ o, step m (Ev.press o) = m ∨ step m (Ev.press o) = stopSession m) := by
  have hi := reachable_lifecycleInv m h
  exact ⟨hi.1, fun e => step_allowedEdge m e hi,
    fun hni o => press_outside_idle m hi hni o⟩

/-- Witness for C4 at the concrete reachable `CONNECTING` state one step from start: a
further press of the toggle is rejected or a stop, and never reaches `ERROR`. -/
theorem start_only_from_idle_wit :
    (step initModel (Ev.press StartOutcome.ok)).appState ≠ AppState.ERROR ∧
    (step (step initModel (Ev.press StartOutcome.ok)) (Ev.press StartOutcome.ok)
        = step initModel (Ev.press StartOutcome.ok) ∨
      step (step initModel (Ev.press StartOutcome.ok)) (Ev.press StartOutcome.ok)
        = stopSession (step initModel (Ev.press StartOutcome.ok))) := by
  have hr : Reachable (step initModel (Ev.press StartOutcome.ok)) :=
    Relation.ReflTransGen.single ⟨Ev.press StartOutcome.ok, rfl⟩
  have h := start_only_from_idle _ hr
  exact ⟨h.1, h.2.2 (by decide) StartOutcome.ok⟩

/-- Witness for the amended C9 at a concrete state with a committed segment and a pending
draft, confirmation given. -/
theorem clearAll_confirmation_and_effects_wit :
    (clearAll logWithDraft true).transcriptions = [] ∧
    (clearAll logWithDraft true).currentDraft = "" ∧
    (clearAllButtonV1 logWithDraft true).currentDraft = logWithDraft.currentDraft :=
  let h := (clearAll_confirmation_and_effects logWithDraft true).2 rfl
  ⟨h.1, h.2.1, h.2.2.2.2.2⟩
